import Mathlib

/-!
Verification of the two automation pipelines in this repository:
`audio_to_notion.py` (audio transcription → Notion pages, with a
hash-based file-change tracker and a text chunker) and
`zotero_to_anki.py` (Zotero annotation notes → Anki flashcards, with
parent-chain resolution and deck-level deduplication).

Text is modelled as `List Char` (Python `str`), file paths, item keys
and digests as opaque `String` tokens, remote calls as explicit
function parameters returning `Except`, and the persisted JSON state
as an association list with Python-dict insert/overwrite semantics.
-/

/-- Python whitespace, as recognised by `str.strip` / `str.lstrip`
(space, tab, newline, carriage return, vertical tab, form feed). -/
def isPySpace (c : Char) : Bool :=
  c = ' ' || c = '\t' || c = '\n' || c = '\r' || c = Char.ofNat 11 || c = Char.ofNat 12

/-- Python `str.lstrip()`: drop leading whitespace. -/
def pyLStrip (s : List Char) : List Char :=
  s.dropWhile isPySpace

/-- Python `str.strip()`: drop leading and trailing whitespace. -/
def pyStrip (s : List Char) : List Char :=
  (((s.dropWhile isPySpace).reverse).dropWhile isPySpace).reverse

/-- Python `s.startswith(p)`. -/
def beginsWith : List Char → List Char → Bool
  | [], _ => true
  | _ :: _, [] => false
  | p :: ps, c :: cs => p = c && beginsWith ps cs

/-- Python `p in s` (contiguous-substring containment). -/
def containsSub : List Char → List Char → Bool
  | p, [] => p.isEmpty
  | p, c :: rest => beginsWith p (c :: rest) || containsSub p rest

/-- Python `str.splitlines()`: split at LF, CR, or CR-LF; a trailing
line terminator does not produce a final empty line. -/
def splitlinesAux : List Char → List Char → List (List Char)
  | [], acc => if acc.isEmpty then [] else [acc.reverse]
  | '\r' :: '\n' :: rest, acc => acc.reverse :: splitlinesAux rest []
  | '\r' :: rest, acc => acc.reverse :: splitlinesAux rest []
  | '\n' :: rest, acc => acc.reverse :: splitlinesAux rest []
  | c :: rest, acc => splitlinesAux rest (c :: acc)

/-- Python `txt.splitlines()`. -/
def splitlines (s : List Char) : List (List Char) :=
  splitlinesAux s []

/-!
## Text chunker — `split_text` in `audio_to_notion.py`

```python
def split_text(text: str, max_length: int = 1900) -> List[str]:
    if len(text) <= max_length:
        return [text]
    chunks = []
    while text:
        if len(text) <= max_length:
            chunks.append(text)
            break
        split_point = max_length
        for i in range(max_length, max(0, max_length - 100), -1):
            if text[i] in '.!?':
                split_point = i + 1
                break
            elif text[i] == ' ':
                split_point = i + 1
                break
        chunks.append(text[:split_point])
        text = text[split_point:].lstrip()
    return chunks
```

The backward scan is embedded as `scanBack` with an explicit step
count (`range(max_length, max(0, max_length - 100), -1)` visits
`max_length - max(0, max_length - 100)` indices, counting down from
`max_length`).  The `while` loop is embedded with explicit fuel; one
unit of fuel is spent per iteration, and `text.length` units suffice
whenever `max_length ≥ 1` because every iteration removes at least
one character.  (For `max_length = 0` the Python loop does not
terminate on non-blank input, so the theorems below assume
`1 ≤ maxLength`.)
-/

/-- The backward boundary scan of `split_text`: starting at index `i`
and examining `steps` indices counting down, return `some (j + 1)`
for the first index `j` holding `'.'`, `'!'`, `'?'` or a space,
else `none`.  All indices examined are in bounds in context, so the
out-of-range default `'x'` of `getD` is never consulted. -/
def scanBack (text : List Char) : Nat → Nat → Option Nat
  | _, 0 => none
  | i, steps + 1 =>
    if text.getD i 'x' = '.' || text.getD i 'x' = '!' || text.getD i 'x' = '?' then
      some (i + 1)
    else if text.getD i 'x' = ' ' then
      some (i + 1)
    else
      scanBack text (i - 1) steps

/-- The `split_point` one iteration of `split_text` settles on:
the boundary the backward scan found, else the hard cut at
`max_length`. -/
def splitPoint (text : List Char) (maxLength : Nat) : Nat :=
  match scanBack text maxLength (maxLength - (maxLength - 100)) with
  | some p => p
  | none => maxLength

/-- One `while` iteration of `split_text`, with fuel.  Each produced
pair is `(chunk, ws)` where `chunk` is the appended block and `ws` is
the leading whitespace that the subsequent `lstrip()` removed from
the remainder (recorded so the reassembly property can be stated). -/
def splitLoop (maxLength : Nat) : Nat → List Char → List (List Char × List Char)
  | 0, _ => []
  | fuel + 1, text =>
    if text.isEmpty then []
    else if text.length ≤ maxLength then [(text, [])]
    else
      ((text.take (splitPoint text maxLength)),
        (text.drop (splitPoint text maxLength)).takeWhile isPySpace) ::
        splitLoop maxLength fuel ((text.drop (splitPoint text maxLength)).dropWhile isPySpace)

/-- `split_text`, instrumented: returns each block paired with the
whitespace `lstrip` removed right after it. -/
def splitTextPairs (text : List Char) (maxLength : Nat) : List (List Char × List Char) :=
  if text.length ≤ maxLength then [(text, [])]
  else splitLoop maxLength text.length text

/-- `split_text` from `audio_to_notion.py` (the blocks only). -/
def split_text (text : List Char) (maxLength : Nat) : List (List Char) :=
  (splitTextPairs text maxLength).map Prod.fst

/-- Concatenate blocks, restoring after each block the whitespace that
`lstrip` removed there. -/
def reassemble (ps : List (List Char × List Char)) : List Char :=
  ps.foldr (fun p acc => p.1 ++ (p.2 ++ acc)) []

/-!
## File-change tracker and state — `audio_to_notion.py`

The persisted state (`audio_processing_state.json`) is a JSON object
mapping file path → content digest; it is modelled as an association
list with Python-dict semantics (`dictInsert` overwrites in place or
appends).  The digest function (`_get_file_hash`, MD5 over the file
bytes) is an external computation over opaque byte contents and is
modelled as an abstract function parameter `hashFn` from file content
to digest.
-/

/-- Lookup in an association list keyed by `String` (Python `d.get(k)` /
`k in d` on a dict). -/
def lookupKV {α : Type} (m : List (String × α)) (k : String) : Option α :=
  (m.find? (fun p => p.1 == k)).map Prod.snd

/-- Python dict assignment `d[k] = v`: overwrite the entry for `k` when
present, else append a new entry. -/
def dictInsert {α : Type} (m : List (String × α)) (k : String) (v : α) :
    List (String × α) :=
  if (lookupKV m k).isSome then
    m.map (fun q => if q.1 == k then (k, v) else q)
  else
    m ++ [(k, v)]

/-- `AudioToNotionProcessor._load_state`: the state file is either
absent (`none`), or present with a parse outcome — `Except.error` for
invalid JSON (`json.JSONDecodeError`), `Except.ok` for a parsed
mapping.  Absent file or parse failure yields the empty mapping. -/
def load_state (file : Option (Except Unit (List (String × String)))) :
    List (String × String) :=
  match file with
  | none => []
  | some (Except.error _) => []
  | some (Except.ok m) => m

/-- `AudioToNotionProcessor._get_new_files`: keep the files whose path
is absent from the stored mapping or whose current content digest
differs from the stored one.  A file is a `(path, content)` pair;
`hashFn` is the content-digest function. -/
def get_new_files (hashFn : String → String) (processed : List (String × String))
    (files : List (String × String)) : List (String × String) :=
  files.filter (fun f =>
    match lookupKV processed f.1 with
    | none => true
    | some h => h != hashFn f.2)

/-!
## Audio pipeline driver — `process_new_files` / `_create_notion_page`

The three remote stages (`_transcribe_audio`, `_summarize_text`, the
Notion page-creation POST) are external calls modelled as `Except`
valued function parameters; `Except.error` stands for a raised
exception (or a non-success HTTP status that the source converts into
a raised exception).
-/

/-- The external calls made per file by `process_new_files`. -/
structure AudioOps where
  hashFn : String → String
  transcribe : String → Except String String
  summarize : String → Except String String
  createPage : String → String → String → Except String String

/-- The body of the per-file `try` block in `process_new_files`:
transcribe, then summarize, then create the Notion page; the first
raised exception aborts the file. -/
def runFile (ops : AudioOps) (path : String) : Except String String :=
  match ops.transcribe path with
  | Except.error e => Except.error e
  | Except.ok transcript =>
    match ops.summarize transcript with
    | Except.error e => Except.error e
    | Except.ok summary => ops.createPage path transcript summary

/-- The `for file_path in new_files` loop of `process_new_files`: on
success append the page id and update the file's digest entry; on a
raised exception leave the state untouched and continue with the next
file. -/
def processLoop (ops : AudioOps) :
    List (String × String) → List (String × String) →
    List (String × String) × List String
  | [], st => (st, [])
  | (p, c) :: rest, st =>
    match runFile ops p with
    | Except.error _ => processLoop ops rest st
    | Except.ok pid =>
      let result := processLoop ops rest (dictInsert st p (ops.hashFn c))
      (result.1, pid :: result.2)

/-- `AudioToNotionProcessor.process_new_files`: select the new files,
then process them in order.  Returns the final state mapping and the
created page ids. -/
def process_new_files (ops : AudioOps) (st : List (String × String))
    (files : List (String × String)) :
    List (String × String) × List String :=
  processLoop ops (get_new_files ops.hashFn st files) st

/-- A Notion content block (`heading_2` or `paragraph`). -/
inductive NotionBlock where
  | heading (t : List Char)
  | paragraph (t : List Char)
deriving DecidableEq

/-- The payload of the Notion create-page call: page title and ordered
children blocks. -/
structure NotionPage where
  title : List Char
  children : List NotionBlock
deriving DecidableEq

/-- The title computation of `_create_notion_page`.  `titleResp` is
the outcome of the title-generation request: `Except.error` for a
raised exception, `Except.ok (status, content)` for a response.  On
status 200 the reply is stripped, stripped of quote characters, falls
back to "Untitled" when empty, and is suffixed with the file name;
on any failure the raw file name is used. -/
def computeTitle (titleResp : Except (List Char) (Nat × List Char))
    (fileName : List Char) : List Char :=
  match titleResp with
  | Except.error _ => fileName
  | Except.ok (status, content) =>
    if status = 200 then
      let ai := pyStrip ((pyStrip content).filter
        (fun ch => !(ch = '"' || ch = Char.ofNat 39)))
      let ai2 := if ai.isEmpty then ("Untitled".toList) else ai
      ai2 ++ (" - ".toList) ++ fileName
    else fileName

/-- `AudioToNotionProcessor._create_notion_page`: compute the title
(with its internal fallback), chunk the transcript to the 1900
character block limit, assemble the children blocks, and issue the
page-creation call (`notionCall`, whose `Except.error` models the
raised exception on a non-200 Notion response). -/
def create_notion_page (titleResp : Except (List Char) (Nat × List Char))
    (notionCall : NotionPage → Except (List Char) (List Char))
    (fileName transcript summary : List Char) : Except (List Char) (List Char) :=
  let notion_title := computeTitle titleResp fileName
  let transcript_chunks := split_text transcript 1900
  let children :=
    NotionBlock.heading ("Summary".toList) ::
    NotionBlock.paragraph summary ::
    NotionBlock.heading ("Full Transcript".toList) ::
    transcript_chunks.map NotionBlock.paragraph
  notionCall { title := notion_title, children := children }

/-!
## Annotation harvester — `zotero_to_anki.py`

Fetched Zotero items are modelled by `ZItem`.  The HTML→markdown
conversion (`H2M.handle`) and the flashcard-generation LLM call
(`generate_cards`) are external and appear as function parameters
(`h2m`, `genReply`).  The AnkiConnect calls (`ensure_deck`,
`push_card`) and the generation call are recorded as an effect trace
(`AnkiEffect`) so that "no call occurs" is statable.

`items_by_key` / `papers_by_id` are Python dict comprehensions over
the fetched item list; `keyDict` reproduces their last-wins-on-
duplicate-key semantics via `dictInsert`.
-/

/-- A fetched Zotero item: its key, `data.itemType`, optional
`data.parentItem` reference, the creators' last names
(`none` when a creator dict lacks `lastName`), `data.date`, and the
HTML note body (`data.note`, meaningful for note items). -/
structure ZItem where
  key : String
  itemType : String
  parentItem : Option String
  creators : List (Option (List Char))
  date : List Char
  note : List Char
deriving DecidableEq

/-- A Python dict comprehension `{i["key"]: i for i in l}`
(later entries overwrite earlier ones). -/
def keyDict (l : List ZItem) : List (String × ZItem) :=
  l.foldl (fun m i => dictInsert m i.key i) []

/-- `items_by_key = {i["key"]: i for i in items}`. -/
def itemsByKey (items : List ZItem) : List (String × ZItem) :=
  keyDict items

/-- The item types eligible to be papers in `papers_by_id`. -/
def isEligiblePaper (i : ZItem) : Bool :=
  i.itemType == "journalArticle" || i.itemType == "conferencePaper" || i.itemType == "report"

/-- `papers_by_id`: the fetched items of an eligible paper type,
keyed by item key. -/
def papersById (items : List ZItem) : List (String × ZItem) :=
  keyDict (items.filter isEligiblePaper)

/-- `top_level_key` from `run_pipeline`:

```python
def top_level_key(k):
    while True:
        itm = items_by_key.get(k)
        parent = itm and itm["data"].get("parentItem")
        if not parent:
            return k
        k = parent
```

The unbounded `while True` is embedded with explicit fuel; `none`
means the fuel ran out, i.e. the Python loop has not returned after
that many iterations.  A missing key (`get` → `None`) and a falsy
parent reference (absent `parentItem`, or the empty string) both end
the walk at the current key. -/
def top_level_key (m : List (String × ZItem)) : Nat → String → Option String
  | 0, _ => none
  | fuel + 1, k =>
    match lookupKV m k with
    | none => some k
    | some itm =>
      match itm.parentItem with
      | none => some k
      | some p => if p = "" then some k else top_level_key m fuel p

/-- The marker looked for in the head of a converted note. -/
def annotMarker : List Char :=
  "annotations".toList

/-- `annos.setdefault(top_key, []).append(md)`: append `md` to the
bucket of `k`, creating the bucket at the end when absent. -/
def insertAnno (annos : List (String × List (List Char))) (k : String)
    (md : List Char) : List (String × List (List Char)) :=
  if (lookupKV annos k).isSome then
    annos.map (fun q => if q.1 == k then (q.1, q.2 ++ [md]) else q)
  else
    annos ++ [(k, [md])]

/-- The note-bucketing loop of `run_pipeline`: convert each note to
markdown and strip it, keep it only when "annotations" occurs in the
lowercased first 80 characters, resolve its parent chain, and bucket
it under the resolved top-level key.  `fuel` bounds the parent-chain
walk (the source walk is unbounded); a note whose walk exhausts the
fuel is dropped here, where the source would instead not terminate.
The source reads `n["data"]["parentItem"]` unconditionally and would
raise `KeyError` on a parentless note; `getD ""` keeps the model
total (the walk then returns the empty key at once). -/
def buildAnnos (h2m : List Char → List Char) (m : List (String × ZItem))
    (fuel : Nat) (notes : List ZItem) : List (String × List (List Char)) :=
  notes.foldl (fun annos n =>
    let md := pyStrip (h2m n.note)
    if !(containsSub annotMarker ((md.map Char.toLower).take 80)) then annos
    else
      match top_level_key m fuel (n.parentItem.getD "") with
      | none => annos
      | some top => insertAnno annos top md) []

/-- `deck = f"{PARENT_DECK}::{author} et al., {year}"` with
`PARENT_DECK = f"CMU.49.007 Automated Literature Review::{collection_name}"`,
`author = paper["data"]["creators"][0].get("lastName", "Unknown")` and
`year = paper["data"].get("date", "")[:4] or "n.d."`.  The source
indexes `creators[0]` unconditionally and would raise `IndexError` on
an empty creator list; `headD none` keeps the model total there. -/
def deckName (collection : List Char) (paper : ZItem) : List Char :=
  let author := (paper.creators.headD none).getD ("Unknown".toList)
  let y := paper.date.take 4
  let year := if y.isEmpty then ("n.d.".toList) else y
  ("CMU.49.007 Automated Literature Review::".toList) ++ collection ++
    ("::".toList) ++ author ++ (" et al., ".toList) ++ year

/-- An observable Anki/LLM action of the deck loop. -/
inductive AnkiEffect where
  | createDeck (deck : List Char)
  | genCall (deck : List Char) (notesBlock : List Char)
  | pushCard (deck front back : List Char)
deriving DecidableEq

/-- The deck name an effect is addressed to. -/
def effectDeck : AnkiEffect → List Char
  | AnkiEffect.createDeck d => d
  | AnkiEffect.genCall d _ => d
  | AnkiEffect.pushCard d _ _ => d

/-- `parse_cards` from `zotero_to_anki.py`, as a fold over the
stripped lines carrying the pending `(q, a)` state:

```python
def parse_cards(txt):
    q, a, out = "", "", []
    for ln in txt.splitlines():
        ln = ln.strip()
        if ln.startswith("Q:"):
            if q and a: out.append((q,a))
            q, a = ln[2:].strip(), ""
        elif ln.startswith("A:"):
            a = ln[2:].strip()
    if q and a: out.append((q,a))
    return out
```
-/
def parse_loop : List (List Char) → List Char → List Char → List (List Char × List Char)
  | [], q, a => if q ≠ [] ∧ a ≠ [] then [(q, a)] else []
  | ln :: rest, q, a =>
    let l := pyStrip ln
    if beginsWith ("Q:".toList) l then
      (if q ≠ [] ∧ a ≠ [] then [(q, a)] else []) ++
        parse_loop rest (pyStrip (l.drop 2)) []
    else if beginsWith ("A:".toList) l then
      parse_loop rest q (pyStrip (l.drop 2))
    else
      parse_loop rest q a

/-- `parse_cards(txt)`. -/
def parse_cards (txt : List Char) : List (List Char × List Char) :=
  parse_loop (splitlines txt) [] []

/-- The effects the deck loop emits for one `(pid, txts)` group of
`annos`, given the decks existing when its turn comes: nothing when
the resolved paper is missing (orphan) or its deck already exists;
otherwise deck creation, one generation call on the joined notes, and
one card push per parsed pair. -/
def groupEffects (collection : List Char) (genReply : List Char → List Char)
    (papers : List (String × ZItem)) (decks : List (List Char))
    (g : String × List (List Char)) : List AnkiEffect :=
  match lookupKV papers g.1 with
  | none => []
  | some paper =>
    let deck := deckName collection paper
    if deck ∈ decks then []
    else
      let notesBlock := List.intercalate ('\n' :: '\n' :: []) g.2
      let cards := parse_cards (genReply notesBlock)
      AnkiEffect.createDeck deck :: AnkiEffect.genCall deck notesBlock ::
        cards.map (fun qa => AnkiEffect.pushCard deck qa.1 qa.2)

/-- The `decks_exist` set after one group's turn (`decks_exist.add(deck)`
in the generation branch, unchanged otherwise). -/
def stepDecks (collection : List Char) (papers : List (String × ZItem))
    (decks : List (List Char)) (g : String × List (List Char)) : List (List Char) :=
  match lookupKV papers g.1 with
  | none => decks
  | some paper =>
    let deck := deckName collection paper
    if deck ∈ decks then decks else deck :: decks

/-- The deck loop of `run_pipeline` over the `annos` groups: the
per-group effect lists, in order, threading `decks_exist`. -/
def runDeckLoop (collection : List Char) (genReply : List Char → List Char)
    (papers : List (String × ZItem)) :
    List (List Char) → List (String × List (List Char)) → List (List AnkiEffect)
  | _, [] => []
  | decks, g :: rest =>
    groupEffects collection genReply papers decks g ::
      runDeckLoop collection genReply papers (stepDecks collection papers decks g) rest

/-- `decks_exist` after the loop has consumed a list of groups. -/
def decksAfter (collection : List Char) (papers : List (String × ZItem))
    (decks : List (List Char)) (groups : List (String × List (List Char))) :
    List (List Char) :=
  groups.foldl (stepDecks collection papers) decks

/-- Count of card-push calls in an effect list. -/
def countPushes (effs : List AnkiEffect) : Nat :=
  (effs.filter (fun e =>
    match e with
    | AnkiEffect.pushCard _ _ _ => true
    | _ => false)).length

/-!
## Specification-side descriptions of `parse_cards`

`claimedCardCount` transcribes the claim's wording literally ("one
pair for each `Q:` line that is followed by at least one `A:` line
before the next `Q:` line"); `wellFormedPairs` is the amended
description that the code actually satisfies (the question must be
nonempty after stripping, and the *last* `A:` line of the block must
have nonempty stripped content, which becomes the answer).
-/

/-- Does any `A:` line occur before the next `Q:` line (or the end)? -/
def hasAnswerBeforeNextQ : List (List Char) → Bool
  | [] => false
  | ln :: rest =>
    let l := pyStrip ln
    if beginsWith ("Q:".toList) l then false
    else if beginsWith ("A:".toList) l then true
    else hasAnswerBeforeNextQ rest

/-- The claim's literal count: one card per `Q:` line that is followed
by at least one `A:` line before the next `Q:` line. -/
def claimedCardCount : List (List Char) → Nat
  | [] => 0
  | ln :: rest =>
    (if beginsWith ("Q:".toList) (pyStrip ln) && hasAnswerBeforeNextQ rest then 1 else 0) +
      claimedCardCount rest

/-- The stripped content of the last `A:` line before the next `Q:`
line (or the end), starting from pending content `a`. -/
def pendingAnswer : List (List Char) → List Char → List Char
  | [], a => a
  | ln :: rest, a =>
    let l := pyStrip ln
    if beginsWith ("Q:".toList) l then a
    else if beginsWith ("A:".toList) l then pendingAnswer rest (pyStrip (l.drop 2))
    else pendingAnswer rest a

/-- Amended description of `parse_cards`: one `(question, answer)`
pair for each `Q:` line whose stripped question text is nonempty and
which is followed, before the next `Q:` line, by at least one `A:`
line whose last occurrence has nonempty stripped content; the answer
is that last content. -/
def wellFormedPairs : List (List Char) → List (List Char × List Char)
  | [] => []
  | ln :: rest =>
    let l := pyStrip ln
    if beginsWith ("Q:".toList) l then
      let q := pyStrip (l.drop 2)
      let a := pendingAnswer rest []
      (if q ≠ [] ∧ a ≠ [] then [(q, a)] else []) ++ wellFormedPairs rest
    else wellFormedPairs rest

/-!
## Concrete fixtures used by the witnesses
-/

/-- A chained-under item: the note's direct parent (an attachment). -/
def wItemA : ZItem :=
  { key := "A", itemType := "attachment", parentItem := some "B",
    creators := [], date := [], note := [] }

/-- The middle link of the parent chain. -/
def wItemB : ZItem :=
  { key := "B", itemType := "attachment", parentItem := some "C",
    creators := [], date := [], note := [] }

/-- The top-level paper ending the parent chain. -/
def wItemC : ZItem :=
  { key := "C", itemType := "journalArticle", parentItem := none,
    creators := [some ("Doe".toList)], date := ("2015-06-01".toList),
    note := [] }

/-- A note item hanging under `wItemA`. -/
def wNote : ZItem :=
  { key := "N", itemType := "note", parentItem := some "A",
    creators := [], date := [],
    note := ("Annotations\nFirst highlight.".toList) }

/-- The fetched item set for the chain fixtures. -/
def wItems : List ZItem :=
  [wNote, wItemA, wItemB, wItemC]

/-- A one-item map whose single item is its own parent (a reference
cycle). -/
def wCycleItems : List ZItem :=
  [{ key := "A", itemType := "attachment", parentItem := some "A",
     creators := [], date := [], note := [] }]

/-- A collection name fixture. -/
def wCollection : List Char :=
  "79.002 Biosensors".toList

/-- A canned LLM reply used by witness runs. -/
def wReply : List Char :=
  "Q: What was measured? (Doe et al., 2015)\nA: GABA concentration.".toList

/-- A constant reply function for witness runs. -/
def wGenReply : List Char → List Char :=
  fun _ => wReply

/-- External-call fixture for the audio pipeline: page creation fails
for path "f", so the state entry must stay untouched. -/
def wOpsFail : AudioOps :=
  { hashFn := fun c => c
    transcribe := fun _ => Except.ok "T"
    summarize := fun _ => Except.ok "S"
    createPage := fun _ _ _ => Except.error "notion down" }

/-!
## Lemmas about the text chunker
-/

theorem scanBack_le (text : List Char) :
    ∀ steps i p, scanBack text i steps = some p → p ≤ i + 1 := by
  intro steps
  induction steps with
  | zero => intro i p h; simp [scanBack] at h
  | succ n ih =>
    intro i p h
    simp only [scanBack] at h
    split at h
    · simp only [Option.some.injEq] at h
      omega
    · split at h
      · simp only [Option.some.injEq] at h
        omega
      · have := ih (i - 1) p h
        omega

theorem scanBack_pos (text : List Char) :
    ∀ steps i p, scanBack text i steps = some p → 1 ≤ p := by
  intro steps
  induction steps with
  | zero => intro i p h; simp [scanBack] at h
  | succ n ih =>
    intro i p h
    simp only [scanBack] at h
    split at h
    · simp only [Option.some.injEq] at h
      omega
    · split at h
      · simp only [Option.some.injEq] at h
        omega
      · exact ih (i - 1) p h

theorem splitPoint_le (text : List Char) (maxLength : Nat) :
    splitPoint text maxLength ≤ maxLength + 1 := by
  unfold splitPoint
  cases h : scanBack text maxLength (maxLength - (maxLength - 100)) with
  | none => simp
  | some p => simpa using scanBack_le text _ _ _ h

theorem splitPoint_pos (text : List Char) (maxLength : Nat) (h : 1 ≤ maxLength) :
    1 ≤ splitPoint text maxLength := by
  unfold splitPoint
  cases heq : scanBack text maxLength (maxLength - (maxLength - 100)) with
  | none => simpa using h
  | some p => simpa using scanBack_pos text _ _ _ heq

theorem splitLoop_block_le (maxLength : Nat) :
    ∀ fuel text, ∀ pr ∈ splitLoop maxLength fuel text, pr.1.length ≤ maxLength + 1 := by
  intro fuel
  induction fuel with
  | zero => intro text pr h; simp [splitLoop] at h
  | succ n ih =>
    intro text pr h
    simp only [splitLoop] at h
    split at h
    · simp at h
    · split at h
      · next hle =>
        simp only [List.mem_singleton] at h
        subst h
        show text.length ≤ maxLength + 1
        omega
      · rcases List.mem_cons.mp h with h1 | h2
        · subst h1
          have h1 := splitPoint_le text maxLength
          have h2 := List.length_take (splitPoint text maxLength) text
          simp only [h2]
          omega
        · exact ih _ pr h2

theorem splitLoop_reassemble (maxLength : Nat) (h : 1 ≤ maxLength) :
    ∀ fuel text, text.length ≤ fuel →
      reassemble (splitLoop maxLength fuel text) = text := by
  intro fuel
  induction fuel with
  | zero =>
    intro text hlen
    have : text = [] := List.eq_nil_of_length_eq_zero (Nat.le_zero.mp hlen)
    subst this
    simp [splitLoop, reassemble]
  | succ n ih =>
    intro text hlen
    simp only [splitLoop]
    split
    · next hemp =>
      rw [List.isEmpty_iff] at hemp
      subst hemp
      simp [reassemble]
    · split
      · simp [reassemble]
      · next hemp hgt =>
        have hsp : 1 ≤ splitPoint text maxLength := splitPoint_pos text maxLength h
        have hdrop : (text.drop (splitPoint text maxLength)).length =
            text.length - splitPoint text maxLength := List.length_drop _ _
        have hdw : ((text.drop (splitPoint text maxLength)).dropWhile isPySpace).length ≤
            (text.drop (splitPoint text maxLength)).length :=
          (List.dropWhile_sublist _).length_le
        have hlen2 : ((text.drop (splitPoint text maxLength)).dropWhile isPySpace).length ≤ n := by
          rw [List.isEmpty_iff] at hemp
          have : 1 ≤ text.length := by
            cases text
            · exact absurd rfl hemp
            · simp
          omega
        have := ih _ hlen2
        show (text.take (splitPoint text maxLength)) ++
            (((text.drop (splitPoint text maxLength)).takeWhile isPySpace) ++
              reassemble (splitLoop maxLength n
                ((text.drop (splitPoint text maxLength)).dropWhile isPySpace))) = text
        rw [this, List.takeWhile_append_dropWhile, List.take_append_drop]

/-!
## Lemmas about the dict model and the file-change tracker
-/

theorem lookupKV_cons {α : Type} (a : String × α) (t : List (String × α)) (k : String) :
    lookupKV (a :: t) k = if a.1 = k then some a.2 else lookupKV t k := by
  unfold lookupKV
  by_cases h : a.1 = k
  · rw [List.find?_cons_of_pos _ (by simpa using h), if_pos h]
    rfl
  · rw [List.find?_cons_of_neg _ (by simpa using h), if_neg h]

theorem lookupKV_map_overwrite {α : Type} (k : String) (v : α) :
    ∀ m : List (String × α), (lookupKV m k).isSome →
      lookupKV (m.map (fun q => if q.1 == k then (k, v) else q)) k = some v := by
  intro m
  induction m with
  | nil => intro h; simp [lookupKV] at h
  | cons a t ih =>
    intro h
    rw [List.map_cons]
    by_cases hak : a.1 = k
    · have hb : (a.1 == k) = true := by simpa using hak
      rw [show (if a.1 == k then (k, v) else a) = (k, v) by rw [hb]; rfl]
      rw [lookupKV_cons]
      simp
    · have hb : (a.1 == k) = false := by simpa using hak
      rw [show (if a.1 == k then (k, v) else a) = a by rw [hb]; rfl]
      rw [lookupKV_cons, if_neg hak]
      rw [lookupKV_cons, if_neg hak] at h
      exact ih h

theorem lookupKV_map_ne {α : Type} (k : String) (v : α) (p : String) (hpk : p ≠ k) :
    ∀ m : List (String × α),
      lookupKV (m.map (fun q => if q.1 == k then (k, v) else q)) p = lookupKV m p := by
  intro m
  induction m with
  | nil => rfl
  | cons a t ih =>
    rw [List.map_cons]
    by_cases hak : a.1 = k
    · have hb : (a.1 == k) = true := by simpa using hak
      rw [show (if a.1 == k then (k, v) else a) = (k, v) by rw [hb]; rfl]
      rw [lookupKV_cons, lookupKV_cons]
      rw [if_neg (by simpa using Ne.symm hpk), if_neg (by rw [hak]; exact Ne.symm hpk)]
      exact ih
    · have hb : (a.1 == k) = false := by simpa using hak
      rw [show (if a.1 == k then (k, v) else a) = a by rw [hb]; rfl]
      rw [lookupKV_cons, lookupKV_cons]
      by_cases hap : a.1 = p
      · rw [if_pos hap, if_pos hap]
      · rw [if_neg hap, if_neg hap]
        exact ih

theorem lookupKV_dictInsert {α : Type} (m : List (String × α)) (k : String) (v : α)
    (p : String) :
    lookupKV (dictInsert m k v) p = if p = k then some v else lookupKV m p := by
  unfold dictInsert
  split
  · next hsome =>
    by_cases hpk : p = k
    · subst hpk
      rw [if_pos rfl]
      exact lookupKV_map_overwrite p v m hsome
    · rw [if_neg hpk]
      exact lookupKV_map_ne k v p hpk m
  · next hnone =>
    have hmn : m.find? (fun q => q.1 == k) = none := by
      cases hfind : m.find? (fun q => q.1 == k)
      · rfl
      · simp [lookupKV, hfind] at hnone
    by_cases hpk : p = k
    · subst hpk
      unfold lookupKV
      rw [List.find?_append, hmn]
      simp [List.find?_cons_of_pos]
    · unfold lookupKV
      rw [List.find?_append, if_neg hpk]
      have : ([(k, v)] : List (String × α)).find? (fun q => q.1 == p) = none := by
        rw [List.find?_cons_of_neg _ (by simpa using Ne.symm hpk)]
        rfl
      rw [this]
      rw [Option.or_none]

/-- Claim C3: `_get_new_files` reports exactly the files whose path is
absent from the stored mapping or whose current content digest differs
from the stored one; consequently, after a successful run stores the
digest of content `c` under path `p`, a file with unchanged content is
not reported on the next run, and a file whose content digest differs
is reported. -/
theorem get_new_files_spec (hashFn : String → String) (st files : List (String × String))
    (p c : String) :
    ((p, c) ∈ get_new_files hashFn st files ↔
        ((p, c) ∈ files ∧ lookupKV st p ≠ some (hashFn c))) ∧
    ((p, c) ∉ get_new_files hashFn (dictInsert st p (hashFn c)) files) ∧
    (∀ files2 c2, hashFn c2 ≠ hashFn c → (p, c2) ∈ files2 →
        (p, c2) ∈ get_new_files hashFn (dictInsert st p (hashFn c)) files2) := by
  have hpred : ∀ (st2 : List (String × String)) (q d : String),
      ((match lookupKV st2 q with
        | none => true
        | some h => h != hashFn d) = true) ↔ lookupKV st2 q ≠ some (hashFn d) := by
    intro st2 q d
    cases hl : lookupKV st2 q with
    | none => simp
    | some h => simp [bne_iff_ne]
  refine ⟨?_, ?_, ?_⟩
  · rw [get_new_files, List.mem_filter]
    constructor
    · rintro ⟨hmem, hp⟩
      exact ⟨hmem, (hpred st p c).mp hp⟩
    · rintro ⟨hmem, hp⟩
      exact ⟨hmem, (hpred st p c).mpr hp⟩
  · intro hmem
    rw [get_new_files, List.mem_filter] at hmem
    have := (hpred _ p c).mp hmem.2
    rw [lookupKV_dictInsert, if_pos rfl] at this
    exact this rfl
  · intro files2 c2 hne hmem
    rw [get_new_files, List.mem_filter]
    refine ⟨hmem, (hpred _ p c2).mpr ?_⟩
    rw [lookupKV_dictInsert, if_pos rfl]
    intro hcontra
    exact hne (Option.some.inj hcontra).symm

/-- Witness for C3: with identity digests, a changed file is reported
after the original content's digest was stored. -/
theorem get_new_files_spec_witness :
    ("f", "y") ∈ get_new_files (fun s => s) (dictInsert [] "f" ((fun s => s) "x"))
      [("f", "y")] :=
  (get_new_files_spec (fun s => s) [] [("f", "x")] "f" "x").2.2
    [("f", "y")] "y" (by decide) (by decide)

/-- Claim C10: a missing state file, or one with invalid JSON, loads as
the empty mapping (no exception), and with an empty mapping every
matching file is treated as new. -/
theorem load_state_failure_empty (file : Option (Except Unit (List (String × String))))
    (h : file = none ∨ ∃ e, file = some (Except.error e)) :
    load_state file = [] ∧
    ∀ hashFn files, get_new_files hashFn (load_state file) files = files := by
  have hempty : load_state file = [] := by
    rcases h with h | ⟨e, h⟩ <;> subst h <;> rfl
  refine ⟨hempty, ?_⟩
  intro hashFn files
  rw [hempty]
  unfold get_new_files
  apply List.filter_eq_self.mpr
  intro f hf
  rfl

/-- Witness for C10: an invalid-JSON state file loads as the empty
mapping and reports the single matching file as new. -/
theorem load_state_failure_empty_witness :
    get_new_files (fun s => s) (load_state (some (Except.error ()))) [("a", "b")] =
      [("a", "b")] :=
  (load_state_failure_empty (some (Except.error ())) (Or.inr ⟨(), rfl⟩)).2
    (fun s => s) [("a", "b")]

/-- Claim C9: when the title-generation call raises or returns a
non-200 status, `_create_notion_page` still issues the page-creation
call, with the raw file name as the page title (and the usual
summary/transcript children). -/
theorem create_page_title_fallback (titleResp : Except (List Char) (Nat × List Char))
    (notionCall : NotionPage → Except (List Char) (List Char))
    (fileName transcript summary : List Char)
    (h : (∃ e, titleResp = Except.error e) ∨
         ∃ s c, titleResp = Except.ok (s, c) ∧ s ≠ 200) :
    create_notion_page titleResp notionCall fileName transcript summary =
      notionCall { title := fileName,
                   children := NotionBlock.heading ("Summary".toList) ::
                     NotionBlock.paragraph summary ::
                     NotionBlock.heading ("Full Transcript".toList) ::
                     (split_text transcript 1900).map NotionBlock.paragraph } := by
  have ht : computeTitle titleResp fileName = fileName := by
    rcases h with ⟨e, rfl⟩ | ⟨s, c, rfl, hs⟩
    · rfl
    · simp [computeTitle, hs]
  unfold create_notion_page
  rw [ht]

/-- Witness for C9: a raised title-generation exception still yields
the page call's result, titled with the raw file name. -/
theorem create_page_title_fallback_witness :
    create_notion_page (Except.error ("boom".toList))
      (fun _ => Except.ok ("page-1".toList))
      ("rec.mp3".toList) ("hello".toList) ("sum".toList) =
      Except.ok ("page-1".toList) :=
  create_page_title_fallback (Except.error ("boom".toList))
    (fun _ => Except.ok ("page-1".toList))
    ("rec.mp3".toList) ("hello".toList) ("sum".toList)
    (Or.inl ⟨("boom".toList), rfl⟩)

/-!
## Lemmas about `process_new_files`
-/

theorem processLoop_pages (ops : AudioOps) :
    ∀ files st, (processLoop ops files st).2 =
      files.filterMap (fun f => (runFile ops f.1).toOption) := by
  intro files
  induction files with
  | nil => intro st; rfl
  | cons f rest ih =>
    intro st
    obtain ⟨p, c⟩ := f
    simp only [processLoop, List.filterMap_cons]
    cases h : runFile ops p with
    | error e => simpa [h, Except.toOption] using ih st
    | ok pid => simpa [h, Except.toOption] using ih (dictInsert st p (ops.hashFn c))

theorem processLoop_lookup_notmem (ops : AudioOps) :
    ∀ files st p, p ∉ files.map Prod.fst →
      lookupKV (processLoop ops files st).1 p = lookupKV st p := by
  intro files
  induction files with
  | nil => intro st p _; rfl
  | cons f rest ih =>
    intro st p hnm
    obtain ⟨q, d⟩ := f
    simp only [List.map_cons, List.mem_cons, not_or] at hnm
    obtain ⟨hpq, hnr⟩ := hnm
    simp only [processLoop]
    cases h : runFile ops q with
    | error e => exact ih st p hnr
    | ok pid =>
      rw [ih (dictInsert st q (ops.hashFn d)) p hnr]
      rw [lookupKV_dictInsert, if_neg hpq]

theorem processLoop_lookup (ops : AudioOps) :
    ∀ files st p c, (files.map Prod.fst).Nodup → (p, c) ∈ files →
      lookupKV (processLoop ops files st).1 p =
        (match runFile ops p with
         | Except.ok _ => some (ops.hashFn c)
         | Except.error _ => lookupKV st p) := by
  intro files
  induction files with
  | nil => intro st p c _ hmem; simp at hmem
  | cons f rest ih =>
    intro st p c hnd hmem
    obtain ⟨q, d⟩ := f
    simp only [List.map_cons, List.nodup_cons] at hnd
    obtain ⟨hqn, hndr⟩ := hnd
    rcases List.mem_cons.mp hmem with heq | hmemr
    · rw [Prod.mk.injEq] at heq
      obtain ⟨rfl, rfl⟩ := heq
      simp only [processLoop]
      cases h : runFile ops p with
      | error e =>
        simp only [h]
        exact processLoop_lookup_notmem ops rest st p hqn
      | ok pid =>
        simp only [h]
        rw [processLoop_lookup_notmem ops rest _ p hqn]
        rw [lookupKV_dictInsert, if_pos rfl]
    · have hpq : q ≠ p := by
        intro hqp
        exact hqn (hqp ▸ List.mem_map_of_mem Prod.fst hmemr)
      simp only [processLoop]
      cases h : runFile ops q with
      | error e =>
        simp only [h]
        exact ih st p c hndr hmemr
      | ok pid =>
        simp only [h]
        rw [ih _ p c hndr hmemr]
        cases h2 : runFile ops p with
        | error e2 =>
          simp only [h2]
          rw [lookupKV_dictInsert, if_neg (Ne.symm hpq)]
        | ok pid2 => simp only [h2]

/-- Claim C4: for every file selected by `process_new_files`, a raised
error in transcription, summarization, or page creation leaves that
file's digest entry unchanged (so the file is retried next run), the
loop continues (every selected file contributes its own outcome to the
created-pages list), and the digest entry is set — to the file's
current digest — exactly when its page creation succeeded. -/
theorem process_new_files_state (ops : AudioOps) (st files : List (String × String))
    (p c : String) (hnd : (files.map Prod.fst).Nodup)
    (hmem : (p, c) ∈ get_new_files ops.hashFn st files) :
    (lookupKV (process_new_files ops st files).1 p =
       (match runFile ops p with
        | Except.ok _ => some (ops.hashFn c)
        | Except.error _ => lookupKV st p)) ∧
    (process_new_files ops st files).2 =
      (get_new_files ops.hashFn st files).filterMap (fun f => (runFile ops f.1).toOption) := by
  constructor
  · apply processLoop_lookup
    · have hsub : List.Sublist (get_new_files ops.hashFn st files) files :=
        List.filter_sublist files
      exact hnd.sublist (hsub.map Prod.fst)
    · exact hmem
  · exact processLoop_pages ops _ st

/-- Witness for C4: with a failing page-creation call, the processed
file's digest entry stays absent, and no page id is returned. -/
theorem process_new_files_state_witness :
    lookupKV (process_new_files wOpsFail [] [("f", "x")]).1 "f" = none ∧
    (process_new_files wOpsFail [] [("f", "x")]).2 = [] := by
  have h := process_new_files_state wOpsFail [] [("f", "x")] "f" "x" (by decide) (by decide)
  exact ⟨h.1, h.2⟩

/-!
## The parent-chain walk on a reference cycle (C7)
-/

/-- Claim C7 is violated by the code: on an item map containing a
parent-reference cycle the `while True` walk of `top_level_key` never
returns — for every fuel bound the embedded walk is still running
(`none`), starting from the cycle member "A". -/
theorem top_level_key_cycle_stuck :
    ∀ fuel, top_level_key (itemsByKey wCycleItems) fuel "A" = none := by
  intro fuel
  induction fuel with
  | zero => rfl
  | succ n ih =>
    have hstep : top_level_key (itemsByKey wCycleItems) (n + 1) "A" =
        top_level_key (itemsByKey wCycleItems) n "A" := rfl
    rw [hstep, ih]

/-!
## Deck-level deduplication (C5)
-/

theorem runDeckLoop_length (collection : List Char) (genReply : List Char → List Char)
    (papers : List (String × ZItem)) :
    ∀ groups decks,
      (runDeckLoop collection genReply papers decks groups).length = groups.length := by
  intro groups
  induction groups with
  | nil => intro decks; rfl
  | cons g rest ih =>
    intro decks
    simp only [runDeckLoop, List.length_cons]
    rw [ih]

/-- Claim C5: in the deck loop, a group whose derived deck name is
already in `decks_exist` when its turn comes — whether present at the
start of the run or added by an earlier group — produces no effects at
all (no generation call, no deck creation, no card push); moreover
every effect a group does emit targets a deck that did not previously
exist. -/
theorem deck_dedup_skip (collection : List Char) (genReply : List Char → List Char)
    (papers : List (String × ZItem)) :
    ∀ (groups : List (String × List (List Char))) (decks : List (List Char)) (i : Nat)
      (hig : i < groups.length)
      (hie : i < (runDeckLoop collection genReply papers decks groups).length),
      ((∀ paper, lookupKV papers (groups.get ⟨i, hig⟩).1 = some paper →
          deckName collection paper ∈ decksAfter collection papers decks (groups.take i) →
          (runDeckLoop collection genReply papers decks groups).get ⟨i, hie⟩ = []) ∧
       (∀ e, e ∈ (runDeckLoop collection genReply papers decks groups).get ⟨i, hie⟩ →
          effectDeck e ∉ decksAfter collection papers decks (groups.take i))) := by
  intro groups
  induction groups with
  | nil => intro decks i hig hie; exact absurd hig (by simp)
  | cons g rest ih =>
    intro decks i hig hie
    cases i with
    | zero =>
      constructor
      · intro paper hp hmem
        show groupEffects collection genReply papers decks g = []
        have hmem' : deckName collection paper ∈ decks := hmem
        have hp' : lookupKV papers g.1 = some paper := hp
        simp only [groupEffects, hp']
        rw [if_pos hmem']
      · intro e he
        have he' : e ∈ groupEffects collection genReply papers decks g := he
        show effectDeck e ∉ decks
        cases hp : lookupKV papers g.1 with
        | none => simp only [groupEffects, hp, List.not_mem_nil] at he'
        | some paper =>
          simp only [groupEffects, hp] at he'
          by_cases hd : deckName collection paper ∈ decks
          · rw [if_pos hd] at he'
            exact absurd he' (List.not_mem_nil e)
          · rw [if_neg hd] at he'
            rcases List.mem_cons.mp he' with rfl | he2
            · simpa [effectDeck] using hd
            · rcases List.mem_cons.mp he2 with rfl | he3
              · simpa [effectDeck] using hd
              · obtain ⟨qa, _, rfl⟩ := List.mem_map.mp he3
                simpa [effectDeck] using hd
    | succ n =>
      have hig' : n < rest.length := by simpa using hig
      have hie' : n < (runDeckLoop collection genReply papers
          (stepDecks collection papers decks g) rest).length := by
        rw [runDeckLoop_length]
        exact hig'
      exact ih (stepDecks collection papers decks g) n hig' hie'

/-- Witness for C5: a group whose deck already exists in the initial
deck set emits no effects. -/
theorem deck_dedup_skip_witness :
    (runDeckLoop wCollection wGenReply (papersById wItems)
        [deckName wCollection wItemC] [("C", [("note text".toList)])]).get
      ⟨0, by decide⟩ = [] :=
  (deck_dedup_skip wCollection wGenReply (papersById wItems)
      [("C", [("note text".toList)])] [deckName wCollection wItemC] 0
      (by decide) (by decide)).1 wItemC (by decide) (by decide)

/-!
## Parent-chain resolution and orphan skipping (C6)
-/

theorem top_level_key_step (m : List (String × ZItem)) (fuel : Nat) (k : String)
    (itm : ZItem) (p : String) (hk : lookupKV m k = some itm)
    (hp : itm.parentItem = some p) (hne : p ≠ "") :
    top_level_key m (fuel + 1) k = top_level_key m fuel p := by
  simp only [top_level_key, hk, hp]
  rw [if_neg hne]

theorem top_level_key_stop (m : List (String × ZItem)) (fuel : Nat) (k : String)
    (itm : ZItem) (hk : lookupKV m k = some itm) (hp : itm.parentItem = none) :
    top_level_key m (fuel + 1) k = some k := by
  simp only [top_level_key, hk, hp]

theorem top_level_key_missing (m : List (String × ZItem)) (fuel : Nat) (k : String)
    (hk : lookupKV m k = none) :
    top_level_key m (fuel + 1) k = some k := by
  simp only [top_level_key, hk]

theorem lookupKV_keyDict_aux (k : String) :
    ∀ (l : List ZItem) (acc : List (String × ZItem)),
      (lookupKV (l.foldl (fun m i => dictInsert m i.key i) acc) k = none ↔
        (lookupKV acc k = none ∧ ∀ i ∈ l, i.key ≠ k)) := by
  intro l
  induction l with
  | nil => intro acc; simp
  | cons i t ih =>
    intro acc
    rw [List.foldl_cons, ih]
    constructor
    · rintro ⟨h1, h2⟩
      rw [lookupKV_dictInsert] at h1
      by_cases hk : k = i.key
      · rw [if_pos hk] at h1
        exact absurd h1 (by simp)
      · rw [if_neg hk] at h1
        refine ⟨h1, ?_⟩
        intro j hj
        rcases List.mem_cons.mp hj with rfl | hjt
        · exact fun he => hk he.symm
        · exact h2 j hjt
    · rintro ⟨h1, h2⟩
      have hik : i.key ≠ k := h2 i (List.mem_cons_self i t)
      constructor
      · rw [lookupKV_dictInsert, if_neg (fun he => hik he.symm)]
        exact h1
      · intro j hj
        exact h2 j (List.mem_cons_of_mem i hj)

theorem papersById_none (items : List ZItem) (k : String)
    (h : lookupKV (itemsByKey items) k = none) :
    lookupKV (papersById items) k = none := by
  have h2 : ∀ i ∈ items, i.key ≠ k :=
    ((lookupKV_keyDict_aux k items []).mp h).2
  apply (lookupKV_keyDict_aux k (items.filter isEligiblePaper) []).mpr
  refine ⟨rfl, ?_⟩
  intro i hi
  exact h2 i (List.mem_of_mem_filter hi)

/-- Claim C6: a note whose parent chain is `a → b → c` with `c`
parentless resolves via `top_level_key` to `c` and is bucketed under
`c`; a note whose chain leaves the fetched item set resolves to the
missing key itself and, that key matching no eligible paper, its group
is skipped by the deck loop with no effects and no error. -/
theorem note_grouping_resolution (items : List ZItem) (a b c : String)
    (ia ib ic : ZItem)
    (ha : lookupKV (itemsByKey items) a = some ia) (hpa : ia.parentItem = some b)
    (hbne : b ≠ "")
    (hb : lookupKV (itemsByKey items) b = some ib) (hpb : ib.parentItem = some c)
    (hcne : c ≠ "")
    (hc : lookupKV (itemsByKey items) c = some ic) (hpc : ic.parentItem = none) :
    (∀ fuel, top_level_key (itemsByKey items) (fuel + 3) a = some c) ∧
    (∀ (h2m : List Char → List Char) (n : ZItem) (fuel : Nat),
        n.parentItem = some a →
        containsSub annotMarker (((pyStrip (h2m n.note)).map Char.toLower).take 80) = true →
        buildAnnos h2m (itemsByKey items) (fuel + 3) [n] =
          [(c, [pyStrip (h2m n.note)])]) ∧
    (∀ x, lookupKV (itemsByKey items) x = none →
        (∀ fuel, top_level_key (itemsByKey items) (fuel + 1) x = some x) ∧
        (∀ collection genReply decks txts,
            groupEffects collection genReply (papersById items) decks (x, txts) = [])) := by
  have hwalk : ∀ fuel, top_level_key (itemsByKey items) (fuel + 3) a = some c := by
    intro fuel
    show top_level_key (itemsByKey items) ((fuel + 2) + 1) a = some c
    rw [top_level_key_step (itemsByKey items) (fuel + 2) a ia b ha hpa hbne]
    show top_level_key (itemsByKey items) ((fuel + 1) + 1) b = some c
    rw [top_level_key_step (itemsByKey items) (fuel + 1) b ib c hb hpb hcne]
    exact top_level_key_stop (itemsByKey items) fuel c ic hc hpc
  refine ⟨hwalk, ?_, ?_⟩
  · intro h2m n fuel hpn hmarker
    simp [buildAnnos, insertAnno, lookupKV, hpn, hmarker, hwalk fuel]
  · intro x hx
    constructor
    · intro fuel
      exact top_level_key_missing (itemsByKey items) fuel x hx
    · intro collection genReply decks txts
      have hpap : lookupKV (papersById items) x = none := papersById_none items x hx
      simp [groupEffects, hpap]

/-- Witness for C6: in the concrete fixture the chain `A → B → C`
resolves to the paper `C` within three hops. -/
theorem note_grouping_resolution_witness :
    top_level_key (itemsByKey wItems) 3 "A" = some "C" :=
  (note_grouping_resolution wItems "A" "B" "C" wItemA wItemB wItemC
      (by decide) (by decide) (by decide) (by decide) (by decide) (by decide)
      (by decide) (by decide)).1 0

/-!
## `parse_cards` and the card-push count (C8)
-/

theorem parse_loop_eq :
    ∀ (lines : List (List Char)) (q a : List Char),
      parse_loop lines q a =
        (if q ≠ [] ∧ pendingAnswer lines a ≠ [] then [(q, pendingAnswer lines a)] else []) ++
          wellFormedPairs lines := by
  intro lines
  induction lines with
  | nil =>
    intro q a
    simp [parse_loop, pendingAnswer, wellFormedPairs]
  | cons ln rest ih =>
    intro q a
    by_cases hq : beginsWith ("Q:".toList) (pyStrip ln) = true
    · simp only [parse_loop, pendingAnswer, wellFormedPairs, hq, if_true]
      rw [ih]
    · have hq' : beginsWith ("Q:".toList) (pyStrip ln) = false :=
        Bool.not_eq_true _ ▸ eq_false_of_ne_true hq
      by_cases ha2 : beginsWith ("A:".toList) (pyStrip ln) = true
      · simp only [parse_loop, pendingAnswer, wellFormedPairs, hq', ha2, if_true,
          Bool.false_eq_true, if_false]
        exact ih _ _
      · have ha2' : beginsWith ("A:".toList) (pyStrip ln) = false :=
          Bool.not_eq_true _ ▸ eq_false_of_ne_true ha2
        simp only [parse_loop, pendingAnswer, wellFormedPairs, hq', ha2',
          Bool.false_eq_true, if_false]
        exact ih _ _

theorem countPushes_map_push (deck : List Char) :
    ∀ cards : List (List Char × List Char),
      countPushes (cards.map (fun qa => AnkiEffect.pushCard deck qa.1 qa.2)) =
        cards.length := by
  intro cards
  induction cards with
  | nil => rfl
  | cons qa t ih =>
    simp only [List.map_cons, countPushes, List.filter_cons] at ih ⊢
    simp only [if_true, List.length_cons]
    rw [ih]

/-- Claim C8 (amended): `parse_cards` returns one `(question, answer)`
pair for each `Q:` line whose stripped question text is nonempty and
which is followed, before the next `Q:` line, by at least one `A:`
line whose *last* occurrence has nonempty stripped content (that last
content being the answer); and for a freshly generated deck the number
of pushed cards equals the number of pairs so parsed from the reply. -/
theorem parse_cards_amended :
    (∀ txt, parse_cards txt = wellFormedPairs (splitlines txt)) ∧
    (∀ (collection : List Char) (genReply : List Char → List Char)
        (papers : List (String × ZItem)) (decks : List (List Char))
        (pid : String) (txts : List (List Char)) (paper : ZItem),
        lookupKV papers pid = some paper →
        deckName collection paper ∉ decks →
        countPushes (groupEffects collection genReply papers decks (pid, txts)) =
          (parse_cards (genReply (List.intercalate ('\n' :: '\n' :: []) txts))).length) := by
  constructor
  · intro txt
    unfold parse_cards
    rw [parse_loop_eq]
    simp
  · intro collection genReply papers decks pid txts paper hp hd
    simp only [groupEffects, hp]
    rw [if_neg hd]
    simp only [countPushes, List.filter_cons]
    exact countPushes_map_push (deckName collection paper) _

/-- Claim C8 as stated is false: the reply "Q:\nA: x" has one `Q:`
line followed by an `A:` line, yet `parse_cards` returns no pair,
because the question text is empty. -/
theorem parse_cards_claim_cex :
    claimedCardCount (splitlines ("Q:\nA: x".toList)) = 1 ∧
    parse_cards ("Q:\nA: x".toList) = [] := by
  decide

/-- Witness for C8: a fresh deck's push count equals the parsed-pair
count of the canned reply. -/
theorem parse_cards_amended_witness :
    countPushes (groupEffects wCollection wGenReply (papersById wItems) []
        ("C", [("some note".toList)])) =
      (parse_cards (wGenReply
        (List.intercalate ('\n' :: '\n' :: []) [("some note".toList)]))).length :=
  parse_cards_amended.2 wCollection wGenReply (papersById wItems) [] "C"
    [("some note".toList)] wItemC (by decide) (by decide)

/-!
## The text chunker's block bound and reassembly (C1, C2)
-/

/-- Claim C1 as stated is false: with limit 5, splitting "aaaaa.bb"
produces the block "aaaaa." of length 6, because the backward scan
starts at index `max_length` itself and a boundary found there sets
the split point to `max_length + 1`. -/
theorem split_text_limit_cex :
    ¬ (∀ b ∈ split_text ("aaaaa.bb".toList) 5, b.length ≤ 5) := by
  decide

/-- Claim C1 (amended): with a positive block limit, every block
returned by `split_text` has length at most `maxLength + 1` (one over
the configured maximum; the final block and hard-cut blocks stay
within `maxLength`, but a boundary found at index `maxLength` yields
a block of `maxLength + 1` characters). -/
theorem split_text_block_le_succ (text : List Char) (maxLength : Nat)
    (h : 1 ≤ maxLength) :
    ∀ b ∈ split_text text maxLength, b.length ≤ maxLength + 1 := by
  intro b hb
  unfold split_text splitTextPairs at hb
  by_cases hle : text.length ≤ maxLength
  · rw [if_pos hle] at hb
    simp only [List.map_cons, List.map_nil, List.mem_singleton] at hb
    subst hb
    omega
  · rw [if_neg hle] at hb
    obtain ⟨pr, hpr, rfl⟩ := List.mem_map.mp hb
    exact splitLoop_block_le maxLength text.length text pr hpr

/-- Witness for C1 (amended): the over-long block "aaaaa." respects
the amended bound 5 + 1. -/
theorem split_text_block_le_succ_witness :
    ("aaaaa.".toList).length ≤ 5 + 1 :=
  split_text_block_le_succ ("aaaaa.bb".toList) 5 (by decide) ("aaaaa.".toList) (by decide)

/-- Claim C2: with a positive block limit, concatenating the blocks of
`split_text` while restoring, after each block, exactly the leading
whitespace that `lstrip` removed there reproduces the original text. -/
theorem split_text_reassemble (text : List Char) (maxLength : Nat)
    (h : 1 ≤ maxLength) :
    reassemble (splitTextPairs text maxLength) = text := by
  unfold splitTextPairs
  by_cases hle : text.length ≤ maxLength
  · rw [if_pos hle]
    simp [reassemble]
  · rw [if_neg hle]
    exact splitLoop_reassemble maxLength h text.length text le_rfl

/-- Witness for C2: reassembling the split of a concrete sentence
reproduces it. -/
theorem split_text_reassemble_witness :
    reassemble (splitTextPairs ("It works. Yes, really well.".toList) 8) =
      ("It works. Yes, really well.".toList) :=
  split_text_reassemble ("It works. Yes, really well.".toList) 8 (by decide)
